import Mathlib

/-!
Shallow embedding of the incremental OHLCV synchronization engine
(window resolution, gap detection, paginated fetching, record
normalization, store merge/persist, volume statistics).

Conventions of the embedding:
- instants (timestamps) are modelled as integers; pandas timezone
  conversion of timezone-aware values preserves the underlying instant,
  so comparisons and equality on the timestamp column are comparisons of
  these integers;
- numeric CSV/JSON fields after coercion with errors set to coerce are
  modelled as optional rationals, a missing value standing for NaN;
- a DataFrame is modelled as a list of records (rows in order);
- the filesystem state for one symbol and interval is an optional record
  list (none when no file exists);
- fallible code returns Except or Option.
-/

/-- Errors of the window-resolution and duration-parsing layer
(section 7 taxonomy of the design). -/
inductive WindowError
  | invalidDuration
  | missingWindowInput
  | invalidWindow
deriving DecidableEq, Repr

/-- One canonical candle record: a row of the persisted store, columns as in
the CSV header (timestamp, open, high, low, close, volume, quote_volume,
trades, taker_buy_base, taker_buy_quote, interval, symbol). -/
structure Record where
  timestamp : Int
  symbol : String
  interval : String
  openPrice : Option ℚ
  high : Option ℚ
  low : Option ℚ
  close : Option ℚ
  volume : Option ℚ
  quoteVolume : Option ℚ
  trades : Option Int
  takerBuyBase : Option ℚ
  takerBuyQuote : Option ℚ
deriving DecidableEq, Repr

/-- One raw upstream kline row: the fixed twelve-element array of the
upstream API (open-time, open, high, low, close, volume, close-time,
quote-volume, trades, taker-buy-base, taker-buy-quote, ignore).
Numeric fields are already in their post-coercion form. -/
structure RawKline where
  openTime : Int
  openPrice : Option ℚ
  high : Option ℚ
  low : Option ℚ
  close : Option ℚ
  volume : Option ℚ
  closeTime : Int
  quoteVolume : Option ℚ
  trades : Option Int
  takerBuyBase : Option ℚ
  takerBuyQuote : Option ℚ
  ignored : Option ℚ
deriving DecidableEq, Repr

/-- The natural key of a record, the subset list
timestamp, symbol, interval used by drop_duplicates. -/
def natural_key (r : Record) : Int × String × String :=
  (r.timestamp, r.symbol, r.interval)

/-- Row order used by sort_values on the timestamp column. -/
def tsRel (a b : Record) : Prop :=
  a.timestamp ≤ b.timestamp

instance : DecidableRel tsRel := fun a b =>
  inferInstanceAs (Decidable (a.timestamp ≤ b.timestamp))

instance : IsTotal Record tsRel :=
  ⟨fun a b => Int.le_total a.timestamp b.timestamp⟩

instance : IsTrans Record tsRel :=
  ⟨fun _ _ _ hab hbc => Int.le_trans hab hbc⟩

/-- Helper of dedupKeys: drop every row whose natural key was seen before,
scanning left to right. -/
def dedupKeysAux (seen : List (Int × String × String)) : List Record → List Record
  | [] => []
  | r :: rs =>
    if natural_key r ∈ seen then dedupKeysAux seen rs
    else r :: dedupKeysAux (natural_key r :: seen) rs

/-- drop_duplicates with subset timestamp, symbol, interval and the default
keep-first policy: the first row with each natural key survives, in order. -/
def dedupKeys (l : List Record) : List Record :=
  dedupKeysAux [] l

/-- sort_values on the timestamp column, modelled as a stable sort. -/
def sortTs (l : List Record) : List Record :=
  List.insertionSort tsRel l

/-- The merge step of the store (ingest.main lines 135 to 136 and the
equivalent lines of run_op): concatenate existing and incoming rows,
drop duplicate natural keys keeping the first, sort by timestamp. -/
def merge_store (existing incoming : List Record) : List Record :=
  sortTs (dedupKeys (existing ++ incoming))

/-- csv_writer.write_dataframe: given the frame to persist, the append flag
and the current file contents, return the new file contents and the value
returned to the caller (none when nothing was written). -/
def write_dataframe (df : List Record) (append : Bool) (file : Option (List Record)) :
    Option (List Record) × Option (List Record) :=
  if df = [] then (file, none)
  else
    match file with
    | some existing =>
      if append then
        let combined := merge_store existing df
        (some combined, some combined)
      else (some df, some df)
    | none => (some df, some df)

/-- Conversion of one raw kline into a canonical record
(transform.klines_to_dataframe, per-row part). The timestamp is the
open-time instant; timezone conversion of an aware timestamp does not
change the instant, hence it is the identity here. -/
def record_of_kline (k : RawKline) (symbol interval : String) : Record :=
  { timestamp := k.openTime
    symbol := symbol
    interval := interval
    openPrice := k.openPrice
    high := k.high
    low := k.low
    close := k.close
    volume := k.volume
    quoteVolume := k.quoteVolume
    trades := k.trades
    takerBuyBase := k.takerBuyBase
    takerBuyQuote := k.takerBuyQuote }

/-- transform.klines_to_dataframe: an empty page stays empty; otherwise each
row becomes a record, then the page is deduplicated by natural key and
sorted by timestamp (source lines 48 to 50). -/
def klines_to_dataframe (klines : List RawKline) (symbol interval : String) : List Record :=
  if klines = [] then []
  else sortTs (dedupKeys (klines.map (fun k => record_of_kline k symbol interval)))

/-- Minimum of the timestamp column, none for an empty frame. -/
def ts_min : List Record → Option Int
  | [] => none
  | r :: rs => some (rs.foldl (fun m x => min m x.timestamp) r.timestamp)

/-- Maximum of the timestamp column, none for an empty frame. -/
def ts_max : List Record → Option Int
  | [] => none
  | r :: rs => some (rs.foldl (fun m x => max m x.timestamp) r.timestamp)

/-- The coverage range of a stored record set: the pair of the minimum and
maximum stored timestamp, absent when the set is empty. -/
def coverage (l : List Record) : Option (Int × Int) :=
  match ts_min l, ts_max l with
  | some mn, some mx => some (mn, mx)
  | _, _ => none

/-- ingest.compute_fetch_ranges: the list of sub-ranges of the requested
window that must be fetched, given the existing frame. -/
def compute_fetch_ranges (existing : List Record) (start_time end_time : Int) :
    List (Int × Int) :=
  match coverage existing with
  | none => [(start_time, end_time)]
  | some (min_ts, max_ts) =>
    if min_ts ≤ start_time ∧ max_ts ≥ end_time then []
    else
      let ranges :=
        (if start_time < min_ts then [(start_time, min_ts)] else []) ++
        (if end_time > max_ts then [(max_ts, end_time)] else [])
      if ranges = [] then [(start_time, end_time)] else ranges

/-- GapDetector written from the specification text: no coverage gives the
single gap, full containment gives no gap, otherwise the boundary ranges
before min and after max, with the full window as fallback when neither
boundary condition holds. -/
def gap_ranges_spec (cov : Option (Int × Int)) (s e : Int) : List (Int × Int) :=
  match cov with
  | none => [(s, e)]
  | some (mn, mx) =>
    if mn ≤ s ∧ mx ≥ e then []
    else if s < mn ∧ e > mx then [(s, mn), (mx, e)]
    else if s < mn then [(s, mn)]
    else if e > mx then [(mx, e)]
    else [(s, e)]

/-- Strip of surrounding whitespace, as the python str strip method. -/
def strip_chars (s : List Char) : List Char :=
  ((s.dropWhile Char.isWhitespace).reverse.dropWhile Char.isWhitespace).reverse

/-- config.parse_duration: reject the empty string, strip surrounding
whitespace and lowercase, collect the digit characters and the alphabetic
characters separately, require at least one digit and a unit among m, h, d,
and return the duration in seconds. -/
def parse_duration (expr : List Char) : Except WindowError Nat :=
  if expr = [] then .error .invalidDuration
  else
    let lowered := (strip_chars expr).map Char.toLower
    let value_part := lowered.filter Char.isDigit
    let unit_part := lowered.filter Char.isAlpha
    if value_part = [] then .error .invalidDuration
    else
      let value := value_part.foldl (fun n c => 10 * n + (c.toNat - 48)) 0
      if unit_part = ['m'] then .ok (value * 60)
      else if unit_part = ['h'] then .ok (value * 3600)
      else if unit_part = ['d'] then .ok (value * 86400)
      else .error .invalidDuration

/-- Python truthiness of the optional lookback string: present and nonempty. -/
def lb_truthy : Option String → Bool
  | none => false
  | some s => !s.isEmpty

/-- The final window invariant check shared by both resolver variants. -/
def check_window (s e : Int) : Except WindowError (Int × Int) :=
  if s > e then .error .invalidWindow else .ok (s, e)

/-- ingest.resolve_window: resolve the window from optional explicit
bounds, an optional lookback expression and the current instant. -/
def resolve_window (startOpt endOpt : Option Int) (lookback : Option String) (now : Int) :
    Except WindowError (Int × Int) :=
  match startOpt, endOpt with
  | none, none =>
    if lb_truthy lookback then
      match parse_duration (lookback.getD "").data with
      | .error err => .error err
      | .ok d => check_window (now - d) now
    else .error .missingWindowInput
  | some s, none => check_window s now
  | none, some e =>
    if lb_truthy lookback then
      match parse_duration (lookback.getD "").data with
      | .error err => .error err
      | .ok d => check_window (e - d) e
    else .error .missingWindowInput
  | some s, some e => check_window s e

/-- stats.resolve_window_with_overrides: identical to resolve_window after
substituting the lookback expression, which falls back to the default when
the override is absent or empty. -/
def resolve_window_with_overrides (startOpt endOpt : Option Int)
    (lookback default_lookback : Option String) (now : Int) :
    Except WindowError (Int × Int) :=
  let lookback_expr := if lb_truthy lookback then lookback else default_lookback
  match startOpt, endOpt with
  | none, none =>
    if lb_truthy lookback_expr then
      match parse_duration (lookback_expr.getD "").data with
      | .error err => .error err
      | .ok d => check_window (now - d) now
    else .error .missingWindowInput
  | some s, none => check_window s now
  | none, some e =>
    if lb_truthy lookback_expr then
      match parse_duration (lookback_expr.getD "").data with
      | .error err => .error err
      | .ok d => check_window (e - d) e
    else .error .missingWindowInput
  | some s, some e => check_window s e

/-- The resolved pair before the final invariant check, written from the
four ordered resolution rules of the specification. -/
def resolve_pair_spec (startOpt endOpt : Option Int) (lookback : Option String) (now : Int) :
    Except WindowError (Int × Int) :=
  match startOpt, endOpt with
  | none, none =>
    if lb_truthy lookback then
      match parse_duration (lookback.getD "").data with
      | .error err => .error err
      | .ok d => .ok (now - (d : Int), now)
    else .error .missingWindowInput
  | some s, none => .ok (s, now)
  | none, some e =>
    if lb_truthy lookback then
      match parse_duration (lookback.getD "").data with
      | .error err => .error err
      | .ok d => .ok (e - (d : Int), e)
    else .error .missingWindowInput
  | some s, some e => .ok (s, e)

/-- WindowResolver written from the specification text: the four ordered
rules followed by the final invariant check failing with InvalidWindow
exactly when start exceeds end. -/
def resolve_window_spec (startOpt endOpt : Option Int) (lookback : Option String) (now : Int) :
    Except WindowError (Int × Int) :=
  match resolve_pair_spec startOpt endOpt lookback now with
  | .error err => .error err
  | .ok (s, e) => if s > e then .error .invalidWindow else .ok (s, e)

/-- Python truthiness of the optional end bound in milliseconds: present
and nonzero. -/
def int_truthy : Option Int → Bool
  | none => false
  | some v => v != 0

/-- binance_client.fetch_klines: paginate through the upstream responses.
The upstream is an oracle from the startTime cursor to the returned page;
fuel bounds the number of iterations, none meaning the loop was still
running when the fuel ran out. -/
def fetch_klines (api : Int → List RawKline) (limit : Nat) (end_ms : Option Int) :
    Nat → Int → Option (List RawKline)
  | 0, _ => none
  | fuel + 1, current_start =>
    let chunk := api current_start
    match chunk.getLast? with
    | none => some []
    | some last_row =>
      if int_truthy end_ms && decide (end_ms.getD 0 ≤ last_row.closeTime) then some chunk
      else if chunk.length < limit then some chunk
      else (fetch_klines api limit end_ms fuel (last_row.closeTime + 1)).map (chunk ++ ·)

/-- The stop condition of the claimed protocol: an end bound is set and the
last close-time reached it. -/
def end_bound_reached (end_ms : Option Int) (last_close : Int) : Prop :=
  ∃ e, end_ms = some e ∧ e ≤ last_close

instance (end_ms : Option Int) (last_close : Int) : Decidable (end_bound_reached end_ms last_close) :=
  match end_ms with
  | none => isFalse (by simp [end_bound_reached])
  | some e => decidable_of_iff (e ≤ last_close) (by simp [end_bound_reached])

/-- The stop condition after amendment: a nonzero end bound is set and the
last close-time reached it. -/
def end_bound_reached_nz (end_ms : Option Int) (last_close : Int) : Prop :=
  ∃ e, end_ms = some e ∧ e ≠ 0 ∧ e ≤ last_close

instance (end_ms : Option Int) (last_close : Int) :
    Decidable (end_bound_reached_nz end_ms last_close) :=
  match end_ms with
  | none => isFalse (by simp [end_bound_reached_nz])
  | some e => decidable_of_iff (e ≠ 0 ∧ e ≤ last_close) (by simp [end_bound_reached_nz])

/-- PaginatedFetcher written from the claim text: stop on an empty page,
stop after appending when the end bound is set and reached or when the page
is short, otherwise advance the cursor past the last close-time. -/
def fetch_klines_claim (api : Int → List RawKline) (limit : Nat) (end_ms : Option Int) :
    Nat → Int → Option (List RawKline)
  | 0, _ => none
  | fuel + 1, cursor =>
    let page := api cursor
    match page.getLast? with
    | none => some []
    | some last_row =>
      if end_bound_reached end_ms last_row.closeTime then some page
      else if page.length < limit then some page
      else (fetch_klines_claim api limit end_ms fuel (last_row.closeTime + 1)).map (page ++ ·)

/-- PaginatedFetcher written from the amended claim text, identical except
that only a nonzero end bound stops the loop. -/
def fetch_klines_spec (api : Int → List RawKline) (limit : Nat) (end_ms : Option Int) :
    Nat → Int → Option (List RawKline)
  | 0, _ => none
  | fuel + 1, cursor =>
    let page := api cursor
    match page.getLast? with
    | none => some []
    | some last_row =>
      if end_bound_reached_nz end_ms last_row.closeTime then some page
      else if page.length < limit then some page
      else (fetch_klines_spec api limit end_ms fuel (last_row.closeTime + 1)).map (page ++ ·)

/-- stats.filter_window: keep the rows whose timestamp lies between the
bounds, both included. -/
def filter_window (df : List Record) (start_time end_time : Int) : List Record :=
  if df = [] then []
  else df.filter (fun r => decide (start_time ≤ r.timestamp) && decide (r.timestamp ≤ end_time))

/-- The linear-interpolation quantile of the default pandas method: position
q times n minus one, interpolation between the floor and ceiling order
statistics. Returns zero on the empty list, where the caller never applies
it. -/
def quantile_linear (q : ℚ) (xs : List ℚ) : ℚ :=
  match xs with
  | [] => 0
  | _ :: _ =>
    let sorted := List.insertionSort (fun a b : ℚ => a ≤ b) xs
    let n := xs.length
    let pos : ℚ := q * ((n : ℚ) - 1)
    let lo : Nat := pos.floor.toNat
    let hi : Nat := min (lo + 1) (n - 1)
    let vlo := sorted.getD lo 0
    let vhi := sorted.getD hi 0
    vlo + (pos - (lo : ℚ)) * (vhi - vlo)

/-- The result triple of stats.compute_volume_stats. -/
structure VolumeStats where
  rows : Nat
  avg_volume : ℚ
  p95_volume : ℚ
deriving DecidableEq, Repr

/-- stats.compute_volume_stats: none on an empty frame, none when no volume
value parses, otherwise the count, mean and 95th percentile of the parsed
volumes. -/
def compute_volume_stats (df : List Record) : Option VolumeStats :=
  if df = [] then none
  else
    let volumes := df.filterMap Record.volume
    if volumes = [] then none
    else
      some { rows := volumes.length
             avg_volume := volumes.sum / (volumes.length : ℚ)
             p95_volume := quantile_linear (19 / 20) volumes }

/-- The grammar of the lookback claim: an integer immediately followed by
one of m, h, d, case-insensitive. -/
def matches_grammar (s : List Char) : Bool :=
  match s.getLast? with
  | none => false
  | some u =>
    (u.toLower = 'm' || u.toLower = 'h' || u.toLower = 'd') &&
      decide (s.dropLast ≠ []) && s.dropLast.all Char.isDigit

/-- First record of a frame carrying the given natural key. -/
def firstWithKey (l : List Record) (k : Int × String × String) : Option Record :=
  l.find? (fun x => decide (natural_key x = k))

/-- A record constructor for concrete test frames. -/
def mkRec (t : Int) (v : Option ℚ) : Record :=
  { timestamp := t
    symbol := "BTCUSDT"
    interval := "1h"
    openPrice := none
    high := none
    low := none
    close := none
    volume := v
    quoteVolume := none
    trades := none
    takerBuyBase := none
    takerBuyQuote := none }

/-- A raw kline constructor for concrete pages. -/
def mkKline (ot ct : Int) : RawKline :=
  { openTime := ot
    openPrice := none
    high := none
    low := none
    close := none
    volume := none
    closeTime := ct
    quoteVolume := none
    trades := none
    takerBuyBase := none
    takerBuyQuote := none
    ignored := none }

/-- An upstream oracle for the pagination counterexample: a full page at
cursor zero, another at cursor six, nothing afterwards. -/
def cex_api (cursor : Int) : List RawKline :=
  if cursor = 0 then [mkKline 0 5]
  else if cursor = 6 then [mkKline 6 7]
  else []

/-- The frame of one hundred records whose volumes are the integers one to
one hundred, the concrete example of the statistics claim. -/
def df100 : List Record :=
  (List.range' 1 100).map (fun i => mkRec i (some (mkRat i 1)))

/-- StatsAggregator written from the specification text: no data when no
volume value parses, otherwise the count, the arithmetic mean and the
linear-interpolation 95th percentile of the parsed volumes. -/
def volume_stats_spec (df : List Record) : Option VolumeStats :=
  let vs := df.filterMap Record.volume
  if vs = [] then none
  else
    some { rows := vs.length
           avg_volume := vs.sum / (vs.length : ℚ)
           p95_volume := quantile_linear (19 / 20) vs }

theorem mem_of_mem_dedupKeysAux {x : Record} :
    ∀ (seen : List (Int × String × String)) (l : List Record),
      x ∈ dedupKeysAux seen l → x ∈ l := by
  intro seen l
  induction l generalizing seen with
  | nil => simp [dedupKeysAux]
  | cons r rs ih =>
    simp only [dedupKeysAux]
    by_cases h : natural_key r ∈ seen
    · rw [if_pos h]
      intro hx
      exact List.mem_cons_of_mem r (ih seen hx)
    · rw [if_neg h]
      intro hx
      rcases List.mem_cons.mp hx with h1 | h1
      · exact h1 ▸ List.mem_cons_self r rs
      · exact List.mem_cons_of_mem r (ih _ h1)

theorem dedupKeysAux_keys :
    ∀ (seen : List (Int × String × String)) (l : List Record),
      ((dedupKeysAux seen l).map natural_key).Nodup ∧
        ∀ k ∈ (dedupKeysAux seen l).map natural_key, k ∉ seen := by
  intro seen l
  induction l generalizing seen with
  | nil => simp [dedupKeysAux]
  | cons r rs ih =>
    simp only [dedupKeysAux]
    by_cases h : natural_key r ∈ seen
    · rw [if_pos h]
      exact ih seen
    · rw [if_neg h]
      obtain ⟨hnd, hns⟩ := ih (natural_key r :: seen)
      refine ⟨?_, ?_⟩
      · simp only [List.map_cons, List.nodup_cons]
        refine ⟨fun hc => ?_, hnd⟩
        exact (hns _ hc) (List.mem_cons_self _ _)
      · intro k hk
        simp only [List.map_cons, List.mem_cons] at hk
        rcases hk with h1 | h1
        · exact h1 ▸ h
        · intro hks
          exact hns k h1 (List.mem_cons_of_mem _ hks)

theorem keys_dedupKeys_nodup (l : List Record) :
    ((dedupKeys l).map natural_key).Nodup :=
  (dedupKeysAux_keys [] l).1

theorem sortTs_sorted (l : List Record) : List.Sorted tsRel (sortTs l) :=
  List.sorted_insertionSort tsRel l

theorem sortTs_perm (l : List Record) : List.Perm (sortTs l) l :=
  List.perm_insertionSort tsRel l

theorem merge_store_sorted (a b : List Record) :
    List.Sorted tsRel (merge_store a b) :=
  sortTs_sorted _

theorem merge_store_keys_nodup (a b : List Record) :
    ((merge_store a b).map natural_key).Nodup := by
  have hperm : List.Perm ((merge_store a b).map natural_key)
      ((dedupKeys (a ++ b)).map natural_key) :=
    (sortTs_perm (dedupKeys (a ++ b))).map natural_key
  exact hperm.nodup_iff.mpr (keys_dedupKeys_nodup (a ++ b))

theorem dedupKeysAux_all_seen :
    ∀ (seen : List (Int × String × String)) (l : List Record),
      (∀ x ∈ l, natural_key x ∈ seen) → dedupKeysAux seen l = [] := by
  intro seen l
  induction l generalizing seen with
  | nil => intro _; rfl
  | cons r rs ih =>
    intro hall
    simp only [dedupKeysAux]
    rw [if_pos (hall r (List.mem_cons_self r rs))]
    exact ih seen (fun x hx => hall x (List.mem_cons_of_mem r hx))

theorem dedupKeysAux_nodup_append :
    ∀ (l : List Record) (seen : List (Int × String × String)) (t : List Record),
      (l.map natural_key).Nodup →
      (∀ x ∈ l, natural_key x ∉ seen) →
      (∀ x ∈ t, natural_key x ∈ seen ∨ natural_key x ∈ l.map natural_key) →
      dedupKeysAux seen (l ++ t) = l := by
  intro l
  induction l with
  | nil =>
    intro seen t _ _ ht
    simp only [List.nil_append]
    exact dedupKeysAux_all_seen seen t (fun x hx => (ht x hx).resolve_right (by simp))
  | cons r rs ih =>
    intro seen t hnd hseen ht
    simp only [List.cons_append, dedupKeysAux]
    rw [if_neg (hseen r (List.mem_cons_self r rs))]
    simp only [List.map_cons, List.nodup_cons] at hnd
    congr 1
    refine ih (natural_key r :: seen) t hnd.2 ?_ ?_
    · intro x hx hmem
      rcases List.mem_cons.mp hmem with h1 | h1
      · exact hnd.1 (h1 ▸ List.mem_map_of_mem natural_key hx)
      · exact hseen x (List.mem_cons_of_mem r hx) h1
    · intro x hx
      rcases ht x hx with h1 | h1
      · exact Or.inl (List.mem_cons_of_mem _ h1)
      · simp only [List.map_cons, List.mem_cons] at h1
        rcases h1 with h2 | h2
        · exact Or.inl (h2 ▸ List.mem_cons_self _ _)
        · exact Or.inr h2

theorem dedupKeys_self_append {l : List Record} (hnd : (l.map natural_key).Nodup) :
    dedupKeys (l ++ l) = l := by
  refine dedupKeysAux_nodup_append l [] l hnd (by simp) ?_
  intro x hx
  exact Or.inr (List.mem_map_of_mem natural_key hx)

theorem key_unique {l : List Record} (hnd : (l.map natural_key).Nodup)
    {y z : Record} (hy : y ∈ l) (hz : z ∈ l) (hk : natural_key y = natural_key z) :
    y = z := by
  induction l with
  | nil => cases hy
  | cons r rs ih =>
    simp only [List.map_cons, List.nodup_cons] at hnd
    rcases List.mem_cons.mp hy with h1 | h1 <;> rcases List.mem_cons.mp hz with h2 | h2
    · exact h1.trans h2.symm
    · exfalso
      apply hnd.1
      have : natural_key z ∈ rs.map natural_key := List.mem_map_of_mem natural_key h2
      rwa [← hk, h1] at this
    · exfalso
      apply hnd.1
      have : natural_key y ∈ rs.map natural_key := List.mem_map_of_mem natural_key h1
      rwa [hk, h2] at this
    · exact ih hnd.2 h1 h2

theorem firstWithKey_mem {l : List Record} {k : Int × String × String} {r : Record}
    (h : firstWithKey l k = some r) : r ∈ l ∧ natural_key r = k := by
  refine ⟨List.mem_of_find?_eq_some h, ?_⟩
  have := List.find?_some h
  simpa using this

theorem firstWithKey_isSome {l : List Record} {k : Int × String × String}
    (h : k ∈ l.map natural_key) : ∃ r, firstWithKey l k = some r := by
  rcases List.mem_map.mp h with ⟨x, hx, hkx⟩
  have : (l.find? (fun y => decide (natural_key y = k))).isSome := by
    rw [List.find?_isSome]
    exact ⟨x, hx, by simpa using hkx⟩
  rcases Option.isSome_iff_exists.mp this with ⟨r, hr⟩
  exact ⟨r, hr⟩

theorem firstWithKey_cons_pos {x : Record} {xs : List Record} {k : Int × String × String}
    (h : natural_key x = k) : firstWithKey (x :: xs) k = some x := by
  simp [firstWithKey, List.find?_cons, h]

theorem firstWithKey_cons_neg {x : Record} {xs : List Record} {k : Int × String × String}
    (h : natural_key x ≠ k) : firstWithKey (x :: xs) k = firstWithKey xs k := by
  simp [firstWithKey, List.find?_cons, h]

theorem firstWithKey_append_left {l₁ l₂ : List Record} {k : Int × String × String}
    (h : k ∈ l₁.map natural_key) :
    firstWithKey (l₁ ++ l₂) k = firstWithKey l₁ k := by
  induction l₁ with
  | nil => simp at h
  | cons r rs ih =>
    by_cases hk : natural_key r = k
    · rw [List.cons_append, firstWithKey_cons_pos hk, firstWithKey_cons_pos hk]
    · have h2 : k ∈ rs.map natural_key := by
        rw [List.map_cons, List.mem_cons] at h
        exact h.resolve_left (fun he => hk he.symm)
      rw [List.cons_append, firstWithKey_cons_neg hk, firstWithKey_cons_neg hk]
      exact ih h2

theorem firstWithKey_mem_dedupKeysAux :
    ∀ (l : List Record) (seen : List (Int × String × String)) (k : Int × String × String)
      (r : Record), k ∉ seen → firstWithKey l k = some r → r ∈ dedupKeysAux seen l := by
  intro l
  induction l with
  | nil => intro seen k r _ h; simp [firstWithKey] at h
  | cons x xs ih =>
    intro seen k r hks h
    by_cases hk : natural_key x = k
    · rw [firstWithKey_cons_pos hk] at h
      injection h with h
      subst h
      simp only [dedupKeysAux]
      rw [if_neg (hk ▸ hks)]
      exact List.mem_cons_self _ _
    · rw [firstWithKey_cons_neg hk] at h
      simp only [dedupKeysAux]
      by_cases hseen : natural_key x ∈ seen
      · rw [if_pos hseen]
        exact ih seen k r hks h
      · rw [if_neg hseen]
        refine List.mem_cons_of_mem x (ih _ k r ?_ h)
        intro hc
        rcases List.mem_cons.mp hc with h1 | h1
        · exact hk h1.symm
        · exact hks h1

theorem gap_ranges_spec_length (cov : Option (Int × Int)) (s e : Int) :
    (gap_ranges_spec cov s e).length ≤ 2 := by
  cases cov with
  | none => simp [gap_ranges_spec]
  | some p =>
    obtain ⟨mn, mx⟩ := p
    simp only [gap_ranges_spec]
    split_ifs <;> simp

/-- C1: GapDetector computes gaps exactly as specified. For every existing
frame and requested window, compute_fetch_ranges agrees with the
specification cases applied to the coverage of the frame: one gap when
coverage is absent, no gap when coverage contains the window, otherwise the
boundary ranges with the full window as fallback; and the result always has
at most two gaps. -/
theorem gap_detector_correct (existing : List Record) (s e : Int) :
    compute_fetch_ranges existing s e = gap_ranges_spec (coverage existing) s e ∧
      (compute_fetch_ranges existing s e).length ≤ 2 := by
  have heq : compute_fetch_ranges existing s e = gap_ranges_spec (coverage existing) s e := by
    unfold compute_fetch_ranges gap_ranges_spec
    cases coverage existing with
    | none => rfl
    | some p =>
      obtain ⟨mn, mx⟩ := p
      by_cases h1 : mn ≤ s ∧ mx ≥ e
      · simp only [if_pos h1]
      · by_cases h2 : s < mn <;> by_cases h3 : e > mx <;>
          simp [h1, h2, h3]
  refine ⟨heq, ?_⟩
  rw [heq]
  exact gap_ranges_spec_length (coverage existing) s e

/-- C2: Store invariant. Every record sequence produced by the
merge-then-persist path, either the value persisted by write_dataframe when
handed a merged frame, or the merged frame persisted directly, is
non-decreasing by timestamp and has no two records sharing the natural key
timestamp, symbol, interval. -/
theorem store_invariant_merge_persist (ex inc : List Record) (append : Bool)
    (file : Option (List Record)) (out : List Record)
    (h : (write_dataframe (merge_store ex inc) append file).2 = some out ∨
      out = merge_store ex inc) :
    List.Sorted tsRel out ∧ (out.map natural_key).Nodup := by
  rcases h with h | h
  · unfold write_dataframe at h
    by_cases hdf : merge_store ex inc = []
    · rw [if_pos hdf] at h
      simp at h
    · rw [if_neg hdf] at h
      cases file with
      | none =>
        simp at h
        subst h
        exact ⟨merge_store_sorted ex inc, merge_store_keys_nodup ex inc⟩
      | some existing =>
        cases append with
        | false =>
          simp at h
          subst h
          exact ⟨merge_store_sorted ex inc, merge_store_keys_nodup ex inc⟩
        | true =>
          simp at h
          subst h
          exact ⟨merge_store_sorted existing (merge_store ex inc),
            merge_store_keys_nodup existing (merge_store ex inc)⟩
  · subst h
    exact ⟨merge_store_sorted ex inc, merge_store_keys_nodup ex inc⟩

/-- C2 witness: the invariant instantiated on a concrete merge of two
one-row frames. -/
theorem store_invariant_merge_persist_witness :
    List.Sorted tsRel (merge_store [mkRec 0 none] [mkRec 1 none]) ∧
      ((merge_store [mkRec 0 none] [mkRec 1 none]).map natural_key).Nodup :=
  store_invariant_merge_persist [mkRec 0 none] [mkRec 1 none] true none
    (merge_store [mkRec 0 none] [mkRec 1 none]) (Or.inr rfl)

/-- C10: empty-persist frame property. When the frame to persist is empty,
write_dataframe leaves the file state unchanged and returns none, for every
append configuration and every previous file state. -/
theorem write_dataframe_empty_frame (append : Bool) (file : Option (List Record)) :
    write_dataframe [] append file = (file, none) := rfl

/-- C6 counterexample: for the two-record sequence with timestamps one then
zero, merging the sequence with itself reorders it, so Merge of S with S
does not preserve the order of S for every S. -/
theorem merge_idempotent_cex :
    merge_store [mkRec 1 none, mkRec 0 none] [mkRec 1 none, mkRec 0 none] ≠
      [mkRec 1 none, mkRec 0 none] := by
  decide

/-- C6 amended: Merge is idempotent on canonical store states. For every
sequence that is sorted by timestamp and has no duplicate natural keys,
merging it with itself returns it unchanged, hence with the same record
count and order. -/
theorem merge_idempotent_sorted (S : List Record)
    (hs : List.Sorted tsRel S) (hnd : (S.map natural_key).Nodup) :
    merge_store S S = S := by
  unfold merge_store
  rw [show dedupKeys (S ++ S) = S from dedupKeys_self_append hnd]
  exact hs.insertionSort_eq

/-- C6 witness: idempotence on a concrete sorted duplicate-free sequence. -/
theorem merge_idempotent_sorted_witness :
    merge_store [mkRec 0 none, mkRec 1 none] [mkRec 0 none, mkRec 1 none] =
      [mkRec 0 none, mkRec 1 none] :=
  merge_idempotent_sorted [mkRec 0 none, mkRec 1 none] (by decide) (by decide)

/-- C7 counterexample: a page of two identical raw rows normalizes to a
single record, so the normalizer does not preserve the raw row multiset of
every input page. -/
theorem normalizer_preserves_page_cex :
    (klines_to_dataframe [mkKline 0 5, mkKline 0 5] "BTCUSDT" "1h").length ≠
      ([mkKline 0 5, mkKline 0 5] : List RawKline).length := by
  decide

/-- C7 amended: the normalizer deduplicates each page by natural key,
keeping the first occurrence, and sorts it by timestamp; its output always
satisfies the store ordering and uniqueness conditions. -/
theorem normalizer_dedups_sorts (klines : List RawKline) (symbol interval : String) :
    List.Sorted tsRel (klines_to_dataframe klines symbol interval) ∧
      ((klines_to_dataframe klines symbol interval).map natural_key).Nodup := by
  unfold klines_to_dataframe
  by_cases h : klines = []
  · simp [h]
  · rw [if_neg h]
    refine ⟨sortTs_sorted _, ?_⟩
    have hperm :=
      (sortTs_perm (dedupKeys (klines.map (fun k => record_of_kline k symbol interval)))).map
        natural_key
    exact hperm.nodup_iff.mpr (keys_dedupKeys_nodup _)

/-- C9: duplicate-resolution policy. Whenever a natural key occurs in the
existing frame, the record surviving the merge under that key is exactly the
first existing record carrying it, so the incoming duplicate is discarded. -/
theorem merge_prefers_existing (ex inc : List Record) (k : Int × String × String)
    (hk : k ∈ ex.map natural_key) :
    ∃ r, firstWithKey ex k = some r ∧ r ∈ merge_store ex inc ∧
      ∀ y ∈ merge_store ex inc, natural_key y = k → y = r := by
  obtain ⟨r, hr⟩ := firstWithKey_isSome hk
  have hfk : firstWithKey (ex ++ inc) k = some r := by
    rw [firstWithKey_append_left hk]
    exact hr
  have hrd : r ∈ dedupKeys (ex ++ inc) :=
    firstWithKey_mem_dedupKeysAux (ex ++ inc) [] k r (by simp) hfk
  have hrm : r ∈ merge_store ex inc := by
    unfold merge_store
    exact ((sortTs_perm _).mem_iff).mpr hrd
  refine ⟨r, hr, hrm, ?_⟩
  intro y hy hky
  have hrk : natural_key r = k := (firstWithKey_mem hr).2
  exact key_unique (merge_store_keys_nodup ex inc) hy hrm (by rw [hky, hrk])

/-- C9 witness: with one existing and one incoming record sharing timestamp
zero but carrying different volumes, the existing record survives. -/
theorem merge_prefers_existing_witness :
    ∃ r, firstWithKey [mkRec 0 (some 1)] (0, "BTCUSDT", "1h") = some r ∧
      r ∈ merge_store [mkRec 0 (some 1)] [mkRec 0 (some 2)] ∧
      ∀ y ∈ merge_store [mkRec 0 (some 1)] [mkRec 0 (some 2)],
        natural_key y = (0, "BTCUSDT", "1h") → y = r :=
  merge_prefers_existing [mkRec 0 (some 1)] [mkRec 0 (some 2)] (0, "BTCUSDT", "1h")
    (by decide)

/-- C3 counterexample: with the end bound set to zero milliseconds, the page
limit one and ten units of fuel, the fetcher keeps paginating although the
last close-time of the first page already reached the bound, so the loop
does not follow the claimed protocol for every end bound. -/
theorem fetch_klines_end_bound_zero_cex :
    fetch_klines cex_api 1 (some 0) 10 0 ≠ fetch_klines_claim cex_api 1 (some 0) 10 0 := by
  decide

theorem int_truthy_and_le (end_ms : Option Int) (c : Int) :
    (int_truthy end_ms && decide (end_ms.getD 0 ≤ c)) = true ↔
      end_bound_reached_nz end_ms c := by
  cases end_ms with
  | none => simp [int_truthy, end_bound_reached_nz]
  | some e =>
    simp only [int_truthy, Option.getD_some, Bool.and_eq_true, bne_iff_ne, ne_eq,
      decide_eq_true_eq, end_bound_reached_nz, Option.some.injEq]
    constructor
    · rintro ⟨h1, h2⟩
      exact ⟨e, rfl, h1, h2⟩
    · rintro ⟨x, hx, h1, h2⟩
      cases hx
      exact ⟨h1, h2⟩

/-- C3 amended: PaginatedFetcher follows the protocol with the end-bound
stop weakened to a nonzero end bound: starting from the window start
cursor, it appends each returned page, stops on an empty page, on a nonzero
end bound reached by the last close-time, or on a short page, and otherwise
advances the cursor to the last close-time plus one; the result is the
concatenation of the fetched pages in order. For every upstream oracle,
page limit, end bound, fuel and cursor the code equals that protocol. -/
theorem fetch_klines_protocol_amended (api : Int → List RawKline) (limit : Nat)
    (end_ms : Option Int) (fuel : Nat) (cursor : Int) :
    fetch_klines api limit end_ms fuel cursor =
      fetch_klines_spec api limit end_ms fuel cursor := by
  induction fuel generalizing cursor with
  | zero => rfl
  | succ n ih =>
    cases hc : (api cursor).getLast? with
    | none => simp [fetch_klines, fetch_klines_spec, hc]
    | some last_row =>
      simp only [fetch_klines, fetch_klines_spec, hc]
      by_cases hstop : end_bound_reached_nz end_ms last_row.closeTime
      · rw [if_pos ((int_truthy_and_le end_ms last_row.closeTime).mpr hstop), if_pos hstop]
      · rw [if_neg (fun hb => hstop ((int_truthy_and_le end_ms last_row.closeTime).mp hb)),
          if_neg hstop]
        by_cases hlen : (api cursor).length < limit
        · rw [if_pos hlen, if_pos hlen]
        · rw [if_neg hlen, if_neg hlen, ih]

theorem parse_duration_error_value {expr : List Char} {err : WindowError}
    (h : parse_duration expr = .error err) : err = .invalidDuration := by
  simp only [parse_duration] at h
  split_ifs at h
  all_goals injection h with h2
  all_goals exact h2.symm

theorem resolve_pair_spec_ne_invalidWindow (startOpt endOpt : Option Int)
    (lookback : Option String) (now : Int) :
    resolve_pair_spec startOpt endOpt lookback now ≠ .error .invalidWindow := by
  cases startOpt with
  | none =>
    cases endOpt with
    | none =>
      simp only [resolve_pair_spec]
      by_cases hlb : lb_truthy lookback
      · rw [if_pos hlb]
        cases hp : parse_duration (lookback.getD "").data with
        | error err =>
          have herr := parse_duration_error_value hp
          subst herr
          simp
        | ok d => simp
      · rw [if_neg hlb]
        simp
    | some e =>
      simp only [resolve_pair_spec]
      by_cases hlb : lb_truthy lookback
      · rw [if_pos hlb]
        cases hp : parse_duration (lookback.getD "").data with
        | error err =>
          have herr := parse_duration_error_value hp
          subst herr
          simp
        | ok d => simp
      · rw [if_neg hlb]
        simp
  | some s =>
    cases endOpt with
    | none => simp [resolve_pair_spec]
    | some e => simp [resolve_pair_spec]

theorem resolve_window_eq_spec (startOpt endOpt : Option Int) (lookback : Option String)
    (now : Int) :
    resolve_window startOpt endOpt lookback now =
      resolve_window_spec startOpt endOpt lookback now := by
  cases startOpt with
  | none =>
    cases endOpt with
    | none =>
      simp only [resolve_window, resolve_window_spec, resolve_pair_spec]
      by_cases hlb : lb_truthy lookback
      · cases hp : parse_duration (lookback.getD "").data with
        | error err => simp [hlb, check_window]
        | ok d => simp [hlb, check_window]
      · simp [hlb]
    | some e =>
      simp only [resolve_window, resolve_window_spec, resolve_pair_spec]
      by_cases hlb : lb_truthy lookback
      · cases hp : parse_duration (lookback.getD "").data with
        | error err => simp [hlb, check_window]
        | ok d => simp [hlb, check_window]
      · simp [hlb]
  | some s =>
    cases endOpt with
    | none => simp [resolve_window, resolve_window_spec, resolve_pair_spec, check_window]
    | some e => simp [resolve_window, resolve_window_spec, resolve_pair_spec, check_window]

theorem resolve_window_invalidWindow_iff (startOpt endOpt : Option Int)
    (lookback : Option String) (now : Int) :
    resolve_window startOpt endOpt lookback now = .error .invalidWindow ↔
      ∃ s e, resolve_pair_spec startOpt endOpt lookback now = .ok (s, e) ∧ s > e := by
  rw [resolve_window_eq_spec]
  unfold resolve_window_spec
  cases hp : resolve_pair_spec startOpt endOpt lookback now with
  | error err =>
    have herr : err ≠ .invalidWindow :=
      fun hh => (resolve_pair_spec_ne_invalidWindow startOpt endOpt lookback now) (hh ▸ hp)
    simp [herr]
  | ok p =>
    obtain ⟨s, e⟩ := p
    by_cases hse : s > e
    · constructor
      · intro _
        exact ⟨s, e, rfl, hse⟩
      · intro _
        simp [hse]
    · simp [hse]
      omega

/-- C4: WindowResolver resolves the window by the four ordered rules and
fails with InvalidWindow exactly when the resolved start exceeds the
resolved end; the overrides variant is the same resolver applied to the
lookback override with fallback to the default. -/
theorem resolve_window_rules (startOpt endOpt : Option Int)
    (lookback default_lookback : Option String) (now : Int) :
    resolve_window startOpt endOpt lookback now =
        resolve_window_spec startOpt endOpt lookback now ∧
      (resolve_window startOpt endOpt lookback now = .error .invalidWindow ↔
        ∃ s e, resolve_pair_spec startOpt endOpt lookback now = .ok (s, e) ∧ s > e) ∧
      resolve_window_with_overrides startOpt endOpt lookback default_lookback now =
        resolve_window startOpt endOpt
          (if lb_truthy lookback then lookback else default_lookback) now :=
  ⟨resolve_window_eq_spec startOpt endOpt lookback now,
    resolve_window_invalidWindow_iff startOpt endOpt lookback now, rfl⟩

set_option maxRecDepth 100000 in
/-- C5: StatsAggregator. The window filter keeps exactly the rows whose
timestamp lies between the bounds inclusively; the statistics are none
exactly when no volume parses, and otherwise the count, arithmetic mean and
linear-interpolation 95th percentile of the parsed volumes; on the volumes
one to one hundred the mean is one hundred one halves and the 95th
percentile is one thousand nine hundred one twentieths. -/
theorem stats_aggregator_correct :
    (∀ (df : List Record) (s e : Int),
        filter_window df s e =
          df.filter (fun r => decide (s ≤ r.timestamp ∧ r.timestamp ≤ e))) ∧
      (∀ df : List Record, compute_volume_stats df = volume_stats_spec df) ∧
      compute_volume_stats df100 =
        some { rows := 100, avg_volume := 101 / 2, p95_volume := 1901 / 20 } := by
  refine ⟨?_, ?_, ?_⟩
  · intro df s e
    unfold filter_window
    by_cases h : df = []
    · simp [h]
    · rw [if_neg h]
      congr 1
      funext r
      by_cases h1 : s ≤ r.timestamp <;> by_cases h2 : r.timestamp ≤ e <;> simp [h1, h2]
  · intro df
    unfold compute_volume_stats volume_stats_spec
    by_cases h : df = []
    · simp [h]
    · rw [if_neg h]
  · with_unfolding_all decide

/-- C8 counterexample: the string with the unit letter before the digits
parses successfully to thirty minutes although it does not match the
grammar of an integer immediately followed by a unit letter. -/
theorem parse_duration_grammar_cex :
    parse_duration ("m30".data) = .ok 1800 ∧ matches_grammar ("m30".data) = false :=
  ⟨rfl, rfl⟩

/-- C8 amended: lookback parsing succeeds exactly on the nonempty strings
whose stripped lowercase form contains at least one digit character and
whose alphabetic characters, in order, are exactly the single unit letter m,
h or d; this domain strictly contains the claimed grammar, admitting
strings such as the counterexample with the unit before the digits. -/
theorem parse_duration_domain (expr : List Char) :
    (∃ d, parse_duration expr = .ok d) ↔
      (expr ≠ [] ∧
        ((strip_chars expr).map Char.toLower).filter Char.isDigit ≠ [] ∧
        (((strip_chars expr).map Char.toLower).filter Char.isAlpha = ['m'] ∨
          ((strip_chars expr).map Char.toLower).filter Char.isAlpha = ['h'] ∨
          ((strip_chars expr).map Char.toLower).filter Char.isAlpha = ['d'])) := by
  simp only [parse_duration]
  by_cases h0 : expr = []
  · simp [h0]
  · rw [if_neg h0]
    by_cases h1 : ((strip_chars expr).map Char.toLower).filter Char.isDigit = []
    · simp [h0, h1]
    · rw [if_neg h1]
      by_cases hm : ((strip_chars expr).map Char.toLower).filter Char.isAlpha = ['m']
      · simp [h0, h1, hm]
      · rw [if_neg hm]
        by_cases hh : ((strip_chars expr).map Char.toLower).filter Char.isAlpha = ['h']
        · simp [h0, h1, hm, hh]
        · rw [if_neg hh]
          by_cases hd : ((strip_chars expr).map Char.toLower).filter Char.isAlpha = ['d']
          · simp [h0, h1, hm, hh, hd]
          · rw [if_neg hd]
            simp [h0, h1, hm, hh, hd]
